import Mathlib

/-!
Shallow embedding of the Kelly staking engine of the KellyBet analytics
platform: the odds-conversion helpers of `utils/helpers.py`, the risk
thresholds of `config.py`, and the `KellyCalculator` methods of
`models/kelly_calculator.py`.  Machine floats are modelled by `ℚ`;
Python division, which raises `ZeroDivisionError` on a zero denominator,
is modelled by an `Option`-valued checked division, so every function
that can raise is `Option`-valued and `none` marks the raise.
-/

/-- Checked division: Python `a / b`, which raises when `b == 0`. -/
def div? (a b : ℚ) : Option ℚ :=
  if b = 0 then none else some (a / b)

/-- Python `int(x)`: truncation toward zero. -/
def int_trunc (x : ℚ) : ℤ :=
  if 0 ≤ x then ⌊x⌋ else ⌈x⌉

/-- Embedding of `utils.helpers.american_to_decimal`. -/
def american_to_decimal (odds : ℚ) : Option ℚ :=
  if 0 < odds then some (odds / 100 + 1)
  else (div? 100 |odds|).map (fun y => y + 1)

/-- Embedding of `utils.helpers.decimal_to_american`. -/
def decimal_to_american (d : ℚ) : Option ℤ :=
  if 2 ≤ d then some (int_trunc ((d - 1) * 100))
  else (div? (-100) (d - 1)).map int_trunc

/-- Embedding of `utils.helpers.implied_probability`. -/
def implied_probability (odds : ℚ) : Option ℚ := do
  let d ← american_to_decimal odds
  div? 1 d

/-- Embedding of `utils.helpers.calculate_edge`. -/
def calculate_edge (p odds : ℚ) : Option ℚ := do
  let ip ← implied_probability odds
  pure (p - ip)

/-- Value of `config.RISK_THRESHOLDS['LOW']`. -/
def RISK_THRESHOLDS_LOW : ℚ := 5 / 100

/-- Value of `config.RISK_THRESHOLDS['MEDIUM']`. -/
def RISK_THRESHOLDS_MEDIUM : ℚ := 15 / 100

/-- Embedding of `utils.helpers.assess_risk` (thresholds on the unit-fraction scale). -/
def assess_risk (stake_percentage : ℚ) : String :=
  if stake_percentage < RISK_THRESHOLDS_LOW then "LOW RISK"
  else if stake_percentage < RISK_THRESHOLDS_MEDIUM then "MEDIUM RISK"
  else "HIGH RISK"

namespace KellyCalculator

/-- Embedding of `KellyCalculator.calculate_kelly_fraction`. -/
def calculate_kelly_fraction (win_probability odds : ℚ) : Option ℚ :=
  if win_probability ≤ 0 ∨ 1 ≤ win_probability then some 0
  else do
    let d ← american_to_decimal odds
    let b := d - 1
    let p := win_probability
    let q := 1 - p
    let kf ← div? (b * p - q) b
    pure (max 0 kf)

/-- Embedding of `KellyCalculator.assess_risk` (thresholds scaled to percent). -/
def assess_risk (stake_percentage : ℚ) : String :=
  if stake_percentage < RISK_THRESHOLDS_LOW * 100 then "LOW RISK"
  else if stake_percentage < RISK_THRESHOLDS_MEDIUM * 100 then "MEDIUM RISK"
  else "HIGH RISK"

/-- Embedding of `KellyCalculator.calculate_expected_value`. -/
def calculate_expected_value (win_probability odds stake : ℚ) : Option ℚ := do
  let d ← american_to_decimal odds
  pure (win_probability * (stake * (d - 1)) + (1 - win_probability) * (-stake))

/-- Result record of `KellyCalculator.calculate_recommended_stake`. -/
structure KellyResult where
  win_probability : ℚ
  implied_probability : ℚ
  edge : ℚ
  kelly_fraction : ℚ
  modified_kelly : ℚ
  recommended_stake : ℚ
  stake_percentage : ℚ
  expected_value : ℚ
  risk_assessment : String
  available_bankroll : ℚ
deriving Repr, DecidableEq

/-- Embedding of `KellyCalculator.calculate_recommended_stake`. -/
def calculate_recommended_stake (win_probability odds bankroll kelly_modifier
    max_bankroll_percent : ℚ) : Option KellyResult := do
  let kelly_fraction ← calculate_kelly_fraction win_probability odds
  let modified_kelly := kelly_fraction * kelly_modifier
  let available_bankroll := bankroll * max_bankroll_percent
  let recommended_stake := available_bankroll * modified_kelly
  let implied_prob ← implied_probability odds
  let edge ← calculate_edge win_probability odds
  let expected_value ← calculate_expected_value win_probability odds recommended_stake
  let stake_percentage := if 0 < bankroll then recommended_stake / bankroll * 100 else 0
  let risk_assessment := assess_risk stake_percentage
  pure { win_probability := win_probability * 100,
         implied_probability := implied_prob * 100,
         edge := edge * 100,
         kelly_fraction := kelly_fraction * 100,
         modified_kelly := modified_kelly * 100,
         recommended_stake := recommended_stake,
         stake_percentage := stake_percentage,
         expected_value := expected_value,
         risk_assessment := risk_assessment,
         available_bankroll := available_bankroll }

/-- Embedding of `KellyCalculator.validate_inputs`. -/
def validate_inputs (win_probability odds bankroll : ℚ) : Bool × String :=
  if ¬ (0 < win_probability ∧ win_probability < 1) then
    (false, "Win probability must be between 0 and 1")
  else if odds = 0 then
    (false, "Odds cannot be zero")
  else if -100 < odds ∧ odds < 100 then
    (false, "American odds must be less than -100 or greater than +100")
  else if bankroll ≤ 0 then
    (false, "Bankroll must be positive")
  else
    (true, "Valid inputs")

/-- Loop state of `KellyCalculator.simulate_kelly_betting`. -/
structure SimState where
  bankroll : ℚ
  wins : ℕ
  losses : ℕ
  peak : ℚ
  max_drawdown : ℚ
  history : List ℚ
deriving Repr

/-- One iteration of the betting loop of `KellyCalculator.simulate_kelly_betting`;
the Boolean `outcome` stands for the pseudo-random draw `np.random.random() < p`. -/
def sim_step (win_probability odds kelly_modifier : ℚ) (outcome : Bool)
    (s : SimState) : Option SimState := do
  let kf ← calculate_kelly_fraction win_probability odds
  let stake := s.bankroll * kf * kelly_modifier
  let newBankroll ←
    if outcome then do
      let d ← american_to_decimal odds
      pure (s.bankroll - stake + stake * d)
    else
      pure (s.bankroll - stake)
  let wins := if outcome then s.wins + 1 else s.wins
  let losses := if outcome then s.losses else s.losses + 1
  let peak := if newBankroll > s.peak then newBankroll else s.peak
  let dd ← div? (peak - newBankroll) peak
  let max_drawdown := if dd > s.max_drawdown then dd else s.max_drawdown
  pure { bankroll := newBankroll, wins := wins, losses := losses,
         peak := peak, max_drawdown := max_drawdown,
         history := s.history ++ [newBankroll] }

/-- The betting loop of `KellyCalculator.simulate_kelly_betting`: iterates over the
outcome draws, stopping early once the bankroll is depleted (`current_bankroll <= 0`). -/
def sim_loop (win_probability odds kelly_modifier : ℚ) :
    List Bool → SimState → Option SimState
  | [], s => some s
  | outcome :: rest, s => do
    let s' ← sim_step win_probability odds kelly_modifier outcome s
    if s'.bankroll ≤ 0 then pure s'
    else sim_loop win_probability odds kelly_modifier rest s'

/-- Result record of `KellyCalculator.simulate_kelly_betting`. -/
structure SimResult where
  initial_bankroll : ℚ
  final_bankroll : ℚ
  total_bets : ℕ
  wins : ℕ
  losses : ℕ
  win_rate : ℚ
  roi : ℚ
  max_drawdown : ℚ
  bankroll_history : List ℚ
deriving Repr

/-- Embedding of `KellyCalculator.simulate_kelly_betting`; the list `outcomes`
supplies the pseudo-random draws, one per requested bet (`num_bets = outcomes.length`). -/
def simulate_kelly_betting (win_probability odds initial_bankroll : ℚ)
    (outcomes : List Bool) (kelly_modifier : ℚ) : Option SimResult := do
  let s ← sim_loop win_probability odds kelly_modifier outcomes
    { bankroll := initial_bankroll, wins := 0, losses := 0,
      peak := initial_bankroll, max_drawdown := 0, history := [initial_bankroll] }
  let r ← div? (s.bankroll - initial_bankroll) initial_bankroll
  let final_roi := r * 100
  let win_rate := if 0 < s.wins + s.losses
    then ((s.wins : ℚ) / ((s.wins : ℚ) + (s.losses : ℚ))) * 100 else 0
  pure { initial_bankroll := initial_bankroll, final_bankroll := s.bankroll,
         total_bets := s.wins + s.losses, wins := s.wins, losses := s.losses,
         win_rate := win_rate, roi := final_roi,
         max_drawdown := s.max_drawdown * 100, bankroll_history := s.history }

end KellyCalculator

/-! ### Basic lemmas about the embedded helpers -/

theorem div?_eq_some (a b : ℚ) (hb : b ≠ 0) : div? a b = some (a / b) := by
  simp [div?, hb]

theorem american_to_decimal_of_pos (odds : ℚ) (h : 0 < odds) :
    american_to_decimal odds = some (odds / 100 + 1) := by
  simp [american_to_decimal, h]

theorem american_to_decimal_of_neg (odds : ℚ) (h : odds < 0) :
    american_to_decimal odds = some (100 / |odds| + 1) := by
  have h1 : ¬ (0 < odds) := not_lt.mpr h.le
  have h2 : |odds| ≠ 0 := abs_ne_zero.mpr h.ne
  simp [american_to_decimal, h1, div?_eq_some _ _ h2]

theorem american_to_decimal_gt_one (odds d : ℚ) (ho : odds ≠ 0)
    (hd : american_to_decimal odds = some d) : 1 < d := by
  rcases lt_or_gt_of_ne ho with hneg | hpos
  · rw [american_to_decimal_of_neg odds hneg] at hd
    have habs : 0 < |odds| := abs_pos.mpr hneg.ne
    have : 0 < 100 / |odds| := by positivity
    simp only [Option.some.injEq] at hd
    linarith
  · rw [american_to_decimal_of_pos odds hpos] at hd
    have : 0 < odds / 100 := by positivity
    simp only [Option.some.injEq] at hd
    linarith

theorem american_to_decimal_isSome (odds : ℚ) (ho : odds ≠ 0) :
    ∃ d, american_to_decimal odds = some d ∧ 1 < d := by
  rcases lt_or_gt_of_ne ho with hneg | hpos
  · exact ⟨_, american_to_decimal_of_neg odds hneg,
      american_to_decimal_gt_one odds _ ho (american_to_decimal_of_neg odds hneg)⟩
  · exact ⟨_, american_to_decimal_of_pos odds hpos,
      american_to_decimal_gt_one odds _ ho (american_to_decimal_of_pos odds hpos)⟩

theorem implied_probability_eq (odds d : ℚ) (ho : odds ≠ 0)
    (hd : american_to_decimal odds = some d) :
    implied_probability odds = some (1 / d) := by
  have h1 : 1 < d := american_to_decimal_gt_one odds d ho hd
  have h0 : d ≠ 0 := by linarith
  simp [implied_probability, hd, div?_eq_some _ _ h0]

theorem calculate_edge_eq (p odds d : ℚ) (ho : odds ≠ 0)
    (hd : american_to_decimal odds = some d) :
    calculate_edge p odds = some (p - 1 / d) := by
  simp [calculate_edge, implied_probability_eq odds d ho hd]

/-! ### Lemmas about the Kelly fraction -/

theorem calculate_kelly_fraction_out_of_range (p odds : ℚ) (h : p ≤ 0 ∨ 1 ≤ p) :
    KellyCalculator.calculate_kelly_fraction p odds = some 0 := by
  simp [KellyCalculator.calculate_kelly_fraction, h]

theorem calculate_kelly_fraction_in_range (p odds d : ℚ) (hp : 0 < p) (hp1 : p < 1)
    (ho : odds ≠ 0) (hd : american_to_decimal odds = some d) :
    KellyCalculator.calculate_kelly_fraction p odds =
      some (max 0 (((d - 1) * p - (1 - p)) / (d - 1))) := by
  have h1 : 1 < d := american_to_decimal_gt_one odds d ho hd
  have hb : d - 1 ≠ 0 := by linarith
  have hcond : ¬ (p ≤ 0 ∨ 1 ≤ p) := by push_neg; exact ⟨hp, hp1⟩
  simp [KellyCalculator.calculate_kelly_fraction, hcond, hd, div?_eq_some _ _ hb]

theorem calculate_kelly_fraction_lt_self (p odds d : ℚ) (hp : 0 < p) (hp1 : p < 1)
    (ho : odds ≠ 0) (hd : american_to_decimal odds = some d) :
    max 0 (((d - 1) * p - (1 - p)) / (d - 1)) < p := by
  have h1 : 1 < d := american_to_decimal_gt_one odds d ho hd
  have hb : (0:ℚ) < d - 1 := by linarith
  have hq : (0:ℚ) < 1 - p := by linarith
  have hraw : ((d - 1) * p - (1 - p)) / (d - 1) < p := by
    rw [div_lt_iff₀ hb]
    nlinarith
  exact max_lt hp hraw

theorem calculate_kelly_fraction_bounds (p odds : ℚ) (ho : odds ≠ 0) :
    ∃ f, KellyCalculator.calculate_kelly_fraction p odds = some f ∧ 0 ≤ f ∧ f < 1 := by
  by_cases hrange : p ≤ 0 ∨ 1 ≤ p
  · exact ⟨0, calculate_kelly_fraction_out_of_range p odds hrange, le_refl 0, one_pos⟩
  · push_neg at hrange
    obtain ⟨hp, hp1⟩ := hrange
    obtain ⟨d, hd, hd1⟩ := american_to_decimal_isSome odds ho
    refine ⟨_, calculate_kelly_fraction_in_range p odds d hp hp1 ho hd, le_max_left _ _, ?_⟩
    exact lt_trans (calculate_kelly_fraction_lt_self p odds d hp hp1 ho hd) hp1

/-- Unfolding of `calculate_recommended_stake` once the Kelly fraction and the
decimal odds are known: the returned record, field by field. -/
theorem calculate_recommended_stake_eq (p odds bankroll m c f d : ℚ) (ho : odds ≠ 0)
    (hf : KellyCalculator.calculate_kelly_fraction p odds = some f)
    (hd : american_to_decimal odds = some d) :
    KellyCalculator.calculate_recommended_stake p odds bankroll m c =
      some { win_probability := p * 100,
             implied_probability := 1 / d * 100,
             edge := (p - 1 / d) * 100,
             kelly_fraction := f * 100,
             modified_kelly := f * m * 100,
             recommended_stake := bankroll * c * (f * m),
             stake_percentage := if 0 < bankroll
               then bankroll * c * (f * m) / bankroll * 100 else 0,
             expected_value := p * (bankroll * c * (f * m) * (d - 1)) +
               (1 - p) * (-(bankroll * c * (f * m))),
             risk_assessment := KellyCalculator.assess_risk
               (if 0 < bankroll then bankroll * c * (f * m) / bankroll * 100 else 0),
             available_bankroll := bankroll * c } := by
  simp [KellyCalculator.calculate_recommended_stake, hf, hd,
    implied_probability_eq odds d ho hd, calculate_edge_eq p odds d ho hd,
    KellyCalculator.calculate_expected_value]

theorem american_to_decimal_ne_zero (odds d : ℚ)
    (hd : american_to_decimal odds = some d) : odds ≠ 0 := by
  intro h
  rw [h] at hd
  simp [american_to_decimal, div?] at hd

/-! ### Claim theorems -/

/-- C1: for every win probability, American odds with 100 ≤ |odds|, bankroll ≥ 0,
kelly modifier in (0,1] and max bankroll fraction in [0,1], the recommended
stake exists and satisfies 0 ≤ stake and stake ≤ bankroll × max_bankroll_fraction. -/
theorem C1_stake_within_bounds (p odds bankroll m c : ℚ) (ho : 100 ≤ |odds|)
    (hB : 0 ≤ bankroll) (hm : 0 < m) (hm1 : m ≤ 1) (hc : 0 ≤ c) (_hc1 : c ≤ 1) :
    ∃ r, KellyCalculator.calculate_recommended_stake p odds bankroll m c = some r ∧
      0 ≤ r.recommended_stake ∧ r.recommended_stake ≤ bankroll * c := by
  have ho0 : odds ≠ 0 := by
    intro h; rw [h] at ho; simp at ho; linarith
  obtain ⟨f, hf, hf0, hf1⟩ := calculate_kelly_fraction_bounds p odds ho0
  obtain ⟨d, hd, hd1⟩ := american_to_decimal_isSome odds ho0
  refine ⟨_, calculate_recommended_stake_eq p odds bankroll m c f d ho0 hf hd, ?_, ?_⟩
  · have : 0 ≤ f * m := mul_nonneg hf0 hm.le
    positivity
  · have hfm : f * m ≤ 1 := by nlinarith
    have hBc : 0 ≤ bankroll * c := mul_nonneg hB hc
    nlinarith

/-- C2: for 100 ≤ |odds|, the Kelly fraction is 0 when p is outside (0,1); inside
(0,1) it is the raw value (b·p − q)/b with b = decimal_odds − 1 and q = 1 − p,
floored at 0; a nonnegative raw value is returned unchanged (no cap at 1). -/
theorem C2_kelly_fraction_formula (p odds : ℚ) (ho : 100 ≤ |odds|) :
    (p ≤ 0 ∨ 1 ≤ p → KellyCalculator.calculate_kelly_fraction p odds = some 0) ∧
    (0 < p → p < 1 → ∃ d, american_to_decimal odds = some d ∧
      KellyCalculator.calculate_kelly_fraction p odds =
        some (max 0 (((d - 1) * p - (1 - p)) / (d - 1))) ∧
      (0 ≤ ((d - 1) * p - (1 - p)) / (d - 1) →
        KellyCalculator.calculate_kelly_fraction p odds =
          some (((d - 1) * p - (1 - p)) / (d - 1)))) := by
  have ho0 : odds ≠ 0 := by
    intro h; rw [h] at ho; simp at ho; linarith
  refine ⟨fun h => calculate_kelly_fraction_out_of_range p odds h, fun hp hp1 => ?_⟩
  obtain ⟨d, hd, hd1⟩ := american_to_decimal_isSome odds ho0
  refine ⟨d, hd, calculate_kelly_fraction_in_range p odds d hp hp1 ho0 hd, fun hraw => ?_⟩
  rw [calculate_kelly_fraction_in_range p odds d hp hp1 ho0 hd, max_eq_right hraw]

/-- C9: for every win probability in (0,1) and every nonzero American odds, the
Kelly fraction is at most p, hence strictly below 1. -/
theorem C9_kelly_fraction_le_probability (p odds : ℚ) (hp : 0 < p) (hp1 : p < 1)
    (ho : odds ≠ 0) :
    ∃ f, KellyCalculator.calculate_kelly_fraction p odds = some f ∧ f ≤ p ∧ f < 1 := by
  obtain ⟨d, hd, hd1⟩ := american_to_decimal_isSome odds ho
  have hlt := calculate_kelly_fraction_lt_self p odds d hp hp1 ho hd
  exact ⟨_, calculate_kelly_fraction_in_range p odds d hp hp1 ho hd, hlt.le,
    lt_trans hlt hp1⟩

/-- C4 (amended): for every nonzero American odds value and arbitrary remaining
numeric inputs, `calculate_recommended_stake` returns a result (never raises);
when the win probability is outside (0,1) the result has Kelly fraction 0,
modified Kelly 0, recommended stake 0 and stake percentage 0.  (The reported
edge is `p − implied_probability`, which is in general nonzero there.) -/
theorem C4_degrades_to_zero_stake (p odds bankroll m c : ℚ) (ho : odds ≠ 0) :
    ∃ r, KellyCalculator.calculate_recommended_stake p odds bankroll m c = some r ∧
      (p ≤ 0 ∨ 1 ≤ p → r.kelly_fraction = 0 ∧ r.modified_kelly = 0 ∧
        r.recommended_stake = 0 ∧ r.stake_percentage = 0) := by
  obtain ⟨f, hf, hf0, hf1⟩ := calculate_kelly_fraction_bounds p odds ho
  obtain ⟨d, hd, hd1⟩ := american_to_decimal_isSome odds ho
  refine ⟨_, calculate_recommended_stake_eq p odds bankroll m c f d ho hf hd,
    fun hrange => ?_⟩
  have hzero : f = 0 := by
    rw [calculate_kelly_fraction_out_of_range p odds hrange] at hf
    exact (Option.some.injEq _ _).mp hf.symm
  subst hzero
  refine ⟨by simp, by simp, by simp, ?_⟩
  simp only [zero_mul, mul_zero, zero_div]
  split_ifs <;> simp

/-- C4 (counterexample to the claim as stated): at win probability 0 and odds
+100 the returned record has recommended stake 0 but reported edge −50, not 0. -/
theorem C4_counterexample_edge_not_zero :
    Option.map KellyCalculator.KellyResult.edge
      (KellyCalculator.calculate_recommended_stake 0 100 1000 1 1) = some (-50) ∧
    Option.map KellyCalculator.KellyResult.recommended_stake
      (KellyCalculator.calculate_recommended_stake 0 100 1000 1 1) = some 0 ∧
    (-50 : ℚ) ≠ 0 := by
  refine ⟨?_, ?_, by norm_num⟩ <;>
    norm_num [KellyCalculator.calculate_recommended_stake,
      KellyCalculator.calculate_kelly_fraction, implied_probability, calculate_edge,
      KellyCalculator.calculate_expected_value, american_to_decimal, div?,
      KellyCalculator.assess_risk, RISK_THRESHOLDS_LOW, RISK_THRESHOLDS_MEDIUM]

/-- C6: both risk classifiers are pure functions of the stake percentage with
three non-overlapping ordered tiers (default thresholds 5% and 15%, the top
tier open-ended), and the recommended stake is determined by the Kelly
quantities alone (the classification has no effect on it). -/
theorem C6_risk_tiers :
    (∀ pct : ℚ,
      (KellyCalculator.assess_risk pct = "LOW RISK" ↔ pct < 5) ∧
      (KellyCalculator.assess_risk pct = "MEDIUM RISK" ↔ 5 ≤ pct ∧ pct < 15) ∧
      (KellyCalculator.assess_risk pct = "HIGH RISK" ↔ 15 ≤ pct)) ∧
    (∀ frac : ℚ,
      (assess_risk frac = "LOW RISK" ↔ frac < 5 / 100) ∧
      (assess_risk frac = "MEDIUM RISK" ↔ 5 / 100 ≤ frac ∧ frac < 15 / 100) ∧
      (assess_risk frac = "HIGH RISK" ↔ 15 / 100 ≤ frac)) ∧
    (∀ p odds bankroll m c r,
      KellyCalculator.calculate_recommended_stake p odds bankroll m c = some r →
      r.recommended_stake = r.available_bankroll * (r.modified_kelly / 100)) := by
  refine ⟨?_, ?_, ?_⟩
  · intro pct
    have hform : KellyCalculator.assess_risk pct =
        if pct < 5 then "LOW RISK"
        else if pct < 15 then "MEDIUM RISK" else "HIGH RISK" := by
      simp only [KellyCalculator.assess_risk, RISK_THRESHOLDS_LOW, RISK_THRESHOLDS_MEDIUM]
      norm_num
    rw [hform]
    split_ifs with h1 h2
    · exact ⟨iff_of_true rfl h1,
        iff_of_false (by simp) (fun hc => absurd h1 (not_lt.mpr hc.1)),
        iff_of_false (by simp) (not_le.mpr (by linarith))⟩
    · exact ⟨iff_of_false (by simp) h1,
        iff_of_true rfl ⟨not_lt.mp h1, h2⟩,
        iff_of_false (by simp) (not_le.mpr h2)⟩
    · exact ⟨iff_of_false (by simp) h1,
        iff_of_false (by simp) (fun hc => h2 hc.2),
        iff_of_true rfl (not_lt.mp h2)⟩
  · intro frac
    simp only [assess_risk, RISK_THRESHOLDS_LOW, RISK_THRESHOLDS_MEDIUM]
    split_ifs with h1 h2
    · exact ⟨iff_of_true rfl h1,
        iff_of_false (by simp) (fun hc => absurd h1 (not_lt.mpr hc.1)),
        iff_of_false (by simp) (not_le.mpr (by linarith))⟩
    · exact ⟨iff_of_false (by simp) h1,
        iff_of_true rfl ⟨not_lt.mp h1, h2⟩,
        iff_of_false (by simp) (not_le.mpr h2)⟩
    · exact ⟨iff_of_false (by simp) h1,
        iff_of_false (by simp) (fun hc => h2 hc.2),
        iff_of_true rfl (not_lt.mp h2)⟩
  · intro p odds bankroll m c r h
    rcases hf : KellyCalculator.calculate_kelly_fraction p odds with _ | f
    · simp [KellyCalculator.calculate_recommended_stake, hf] at h
    rcases hd : american_to_decimal odds with _ | d
    · simp [KellyCalculator.calculate_recommended_stake, hf, implied_probability, hd] at h
    have ho : odds ≠ 0 := american_to_decimal_ne_zero odds d hd
    rw [calculate_recommended_stake_eq p odds bankroll m c f d ho hf hd] at h
    simp only [Option.some.injEq] at h
    subst h
    ring

/-- C7: with win probability, odds and bankroll fixed, the recommended stake is
non-decreasing jointly in the Kelly modifier and the max-bankroll fraction. -/
theorem C7_stake_monotone (p odds bankroll m m' c c' : ℚ) (ho : odds ≠ 0)
    (hB : 0 ≤ bankroll) (hm : 0 ≤ m) (hmm : m ≤ m') (hc : 0 ≤ c) (hcc : c ≤ c') :
    ∃ r r', KellyCalculator.calculate_recommended_stake p odds bankroll m c = some r ∧
      KellyCalculator.calculate_recommended_stake p odds bankroll m' c' = some r' ∧
      r.recommended_stake ≤ r'.recommended_stake := by
  obtain ⟨f, hf, hf0, hf1⟩ := calculate_kelly_fraction_bounds p odds ho
  obtain ⟨d, hd, hd1⟩ := american_to_decimal_isSome odds ho
  refine ⟨_, _, calculate_recommended_stake_eq p odds bankroll m c f d ho hf hd,
    calculate_recommended_stake_eq p odds bankroll m' c' f d ho hf hd, ?_⟩
  have hm' : 0 ≤ m' := hm.trans hmm
  have step1 : bankroll * c * (f * m) ≤ bankroll * c * (f * m') := by
    have : f * m ≤ f * m' := mul_le_mul_of_nonneg_left hmm hf0
    exact mul_le_mul_of_nonneg_left this (mul_nonneg hB hc)
  have step2 : bankroll * c * (f * m') ≤ bankroll * c' * (f * m') := by
    have h1 : bankroll * c ≤ bankroll * c' := mul_le_mul_of_nonneg_left hcc hB
    exact mul_le_mul_of_nonneg_right h1 (mul_nonneg hf0 hm')
  exact step1.trans step2

/-- C8: `validate_inputs` fails exactly on win probability outside (0,1), zero
odds, 0 < |odds| < 100, or non-positive bankroll, and succeeds exactly when the
message is the success message. -/
theorem C8_validate_inputs_iff (p odds bankroll : ℚ) :
    ((KellyCalculator.validate_inputs p odds bankroll).1 = false ↔
      ((p ≤ 0 ∨ 1 ≤ p) ∨ odds = 0 ∨ (0 < |odds| ∧ |odds| < 100) ∨ bankroll ≤ 0)) ∧
    ((KellyCalculator.validate_inputs p odds bankroll).1 = true ↔
      (KellyCalculator.validate_inputs p odds bankroll).2 = "Valid inputs") := by
  have key : (KellyCalculator.validate_inputs p odds bankroll).1 = true ↔
      ((0 < p ∧ p < 1) ∧ ¬odds = 0 ∧ ¬(-100 < odds ∧ odds < 100) ∧ 0 < bankroll) := by
    simp only [KellyCalculator.validate_inputs]
    split_ifs with h1 h2 h3 h4 <;> simp_all [not_lt]
  have hneg : (¬((0 < p ∧ p < 1) ∧ ¬odds = 0 ∧ ¬(-100 < odds ∧ odds < 100) ∧
      0 < bankroll)) ↔
      ((p ≤ 0 ∨ 1 ≤ p) ∨ odds = 0 ∨ (0 < |odds| ∧ |odds| < 100) ∨ bankroll ≤ 0) := by
    rw [abs_pos, abs_lt]
    constructor
    · intro h
      by_cases hp : 0 < p ∧ p < 1
      · by_cases ho : odds = 0
        · exact Or.inr (Or.inl ho)
        · by_cases hb : 0 < bankroll
          · by_cases hC : -100 < odds ∧ odds < 100
            · exact Or.inr (Or.inr (Or.inl ⟨ho, hC⟩))
            · exact absurd ⟨hp, ho, hC, hb⟩ h
          · exact Or.inr (Or.inr (Or.inr (not_lt.mp hb)))
      · rcases not_and_or.mp hp with h1 | h1
        · exact Or.inl (Or.inl (not_lt.mp h1))
        · exact Or.inl (Or.inr (not_lt.mp h1))
    · rintro (hp | ho | ⟨ho, hC⟩ | hb) ⟨⟨h1, h2⟩, h3, h4, h5⟩
      · rcases hp with hp | hp <;> linarith
      · exact h3 ho
      · exact h4 hC
      · linarith
  refine ⟨?_, ?_⟩
  · rw [← Bool.not_eq_true]
    exact (not_congr key).trans hneg
  · rw [key]
    simp only [KellyCalculator.validate_inputs]
    split_ifs with h1 h2 h3 h4 <;> simp_all [not_lt]

/-- C10: in the returned record the probability, edge and Kelly fields are the
unit-fraction quantities multiplied by 100, while the recommended stake, the
expected value and the available bankroll are in currency units. -/
theorem C10_percent_units (p odds bankroll m c : ℚ) (ho : odds ≠ 0) :
    ∃ r f d ip e, KellyCalculator.calculate_kelly_fraction p odds = some f ∧
      american_to_decimal odds = some d ∧
      implied_probability odds = some ip ∧
      calculate_edge p odds = some e ∧
      KellyCalculator.calculate_recommended_stake p odds bankroll m c = some r ∧
      r.win_probability = p * 100 ∧
      r.implied_probability = ip * 100 ∧
      r.edge = e * 100 ∧
      r.kelly_fraction = f * 100 ∧
      r.modified_kelly = f * m * 100 ∧
      r.recommended_stake = bankroll * c * (f * m) ∧
      r.available_bankroll = bankroll * c ∧
      KellyCalculator.calculate_expected_value p odds r.recommended_stake =
        some r.expected_value ∧
      r.stake_percentage =
        (if 0 < bankroll then r.recommended_stake / bankroll * 100 else 0) := by
  obtain ⟨f, hf, hf0, hf1⟩ := calculate_kelly_fraction_bounds p odds ho
  obtain ⟨d, hd, hd1⟩ := american_to_decimal_isSome odds ho
  refine ⟨_, f, d, 1 / d, p - 1 / d, hf, hd, implied_probability_eq odds d ho hd,
    calculate_edge_eq p odds d ho hd,
    calculate_recommended_stake_eq p odds bankroll m c f d ho hf hd,
    rfl, rfl, rfl, rfl, rfl, rfl, rfl, ?_, rfl⟩
  simp [KellyCalculator.calculate_expected_value, hd]


/-! ### Simulation lemmas and claim C3 -/

/-- One simulation step keeps the bankroll and the peak strictly positive,
appends exactly the new bankroll to the history and settles exactly one bet. -/
theorem sim_step_spec (p odds m : ℚ) (o : Bool) (s : KellyCalculator.SimState)
    (hp : 0 < p) (hp1 : p < 1) (ho : odds ≠ 0) (hm : 0 < m) (hm1 : m ≤ 1)
    (hB : 0 < s.bankroll) (hpeak : 0 < s.peak) :
    ∃ s', KellyCalculator.sim_step p odds m o s = some s' ∧ 0 < s'.bankroll ∧ 0 < s'.peak ∧
      s'.history = s.history ++ [s'.bankroll] ∧
      s'.wins + s'.losses = s.wins + s.losses + 1 := by
  obtain ⟨f, hf, hf0, hf1⟩ := calculate_kelly_fraction_bounds p odds ho
  have hfm : f * m < 1 := by nlinarith
  have hfm0 : 0 ≤ f * m := mul_nonneg hf0 hm.le
  cases o with
  | false =>
    have hnewB : 0 < s.bankroll - s.bankroll * f * m := by nlinarith
    have hpk : (if s.bankroll - s.bankroll * f * m > s.peak
        then s.bankroll - s.bankroll * f * m else s.peak) ≠ 0 := by
      split_ifs with h <;> [exact hnewB.ne'; exact hpeak.ne']
    rcases hstep : KellyCalculator.sim_step p odds m false s with _ | s'
    · simp [KellyCalculator.sim_step, hf, div?, hpk] at hstep
    · simp [KellyCalculator.sim_step, hf, div?, hpk] at hstep
      subst hstep
      exact ⟨_, rfl, hnewB,
        by dsimp only; split_ifs with h <;> [exact hnewB; exact hpeak],
        rfl, by dsimp only; omega⟩
  | true =>
    obtain ⟨d, hd, hd1⟩ := american_to_decimal_isSome odds ho
    have hstake : 0 ≤ s.bankroll * f * m := by positivity
    have hnewB : 0 < s.bankroll - s.bankroll * f * m + s.bankroll * f * m * d := by
      nlinarith
    have hpk : (if s.bankroll - s.bankroll * f * m + s.bankroll * f * m * d > s.peak
        then s.bankroll - s.bankroll * f * m + s.bankroll * f * m * d else s.peak) ≠ 0 := by
      split_ifs with h <;> [exact hnewB.ne'; exact hpeak.ne']
    rcases hstep : KellyCalculator.sim_step p odds m true s with _ | s'
    · simp [KellyCalculator.sim_step, hf, hd, div?, hpk] at hstep
    · simp [KellyCalculator.sim_step, hf, hd, div?, hpk] at hstep
      subst hstep
      exact ⟨_, rfl, hnewB,
        by dsimp only; split_ifs with h <;> [exact hnewB; exact hpeak],
        rfl, by dsimp only; omega⟩

/-- The betting loop never fails, keeps bankroll and peak positive, appends
only nonnegative bankroll values to the history, and settles at most one bet
per supplied outcome. -/
theorem sim_loop_spec (p odds m : ℚ) (hp : 0 < p) (hp1 : p < 1) (ho : odds ≠ 0)
    (hm : 0 < m) (hm1 : m ≤ 1) :
    ∀ (outcomes : List Bool) (s : KellyCalculator.SimState), 0 < s.bankroll → 0 < s.peak →
    ∃ s', KellyCalculator.sim_loop p odds m outcomes s = some s' ∧ 0 < s'.bankroll ∧ 0 < s'.peak ∧
      (∃ t, s'.history = s.history ++ t ∧ ∀ x ∈ t, 0 ≤ x) ∧
      s'.wins + s'.losses ≤ s.wins + s.losses + outcomes.length := by
  intro outcomes
  induction outcomes with
  | nil =>
    intro s hB hpk
    exact ⟨s, rfl, hB, hpk, ⟨[], by simp, by simp⟩, by simp⟩
  | cons o rest ih =>
    intro s hB hpk
    obtain ⟨s1, hs1, hB1, hpk1, hhist1, hcount1⟩ :=
      sim_step_spec p odds m o s hp hp1 ho hm hm1 hB hpk
    obtain ⟨s2, hs2, hB2, hpk2, ⟨t, ht, ht0⟩, hcount2⟩ := ih s1 hB1 hpk1
    have hnotle : ¬ s1.bankroll ≤ 0 := not_le.mpr hB1
    refine ⟨s2, ?_, hB2, hpk2, ⟨s1.bankroll :: t, ?_, ?_⟩, ?_⟩
    · simp [KellyCalculator.sim_loop, hs1, hnotle, hs2]
    · rw [ht, hhist1]
      simp
    · intro x hx
      rcases List.mem_cons.mp hx with hx | hx
      · exact hx ▸ hB1.le
      · exact ht0 x hx
    · simp only [List.length_cons]
      omega

/-- C3: a simulated path with positive starting bankroll, win probability in
(0,1), valid odds and Kelly modifier in (0,1] always returns, settles at most
`outcomes.length` bets, and every bankroll value recorded in the history is
nonnegative. -/
theorem C3_simulation_bounded (p odds B0 m : ℚ) (outcomes : List Bool)
    (hB : 0 < B0) (hp : 0 < p) (hp1 : p < 1) (ho : 100 ≤ |odds|)
    (hm : 0 < m) (hm1 : m ≤ 1) :
    ∃ res, KellyCalculator.simulate_kelly_betting p odds B0 outcomes m = some res ∧
      res.total_bets ≤ outcomes.length ∧ ∀ x ∈ res.bankroll_history, 0 ≤ x := by
  have ho0 : odds ≠ 0 := by
    intro h; rw [h] at ho; simp at ho; linarith
  obtain ⟨s', hs', hB', hpk', ⟨t, ht, ht0⟩, hcount⟩ :=
    sim_loop_spec p odds m hp hp1 ho0 hm hm1 outcomes
      { bankroll := B0, wins := 0, losses := 0, peak := B0, max_drawdown := 0,
        history := [B0] } hB hB
  rcases hres : KellyCalculator.simulate_kelly_betting p odds B0 outcomes m with _ | res
  · simp [KellyCalculator.simulate_kelly_betting, hs', div?, hB.ne'] at hres
  · simp [KellyCalculator.simulate_kelly_betting, hs', div?, hB.ne'] at hres
    subst hres
    refine ⟨_, rfl, ?_, ?_⟩
    · dsimp only
      simpa using hcount
    · dsimp only
      rw [ht]
      intro x hx
      rcases (by simpa using hx : x = B0 ∨ x ∈ t) with hx | hx
      · exact hx ▸ hB.le
      · exact ht0 x hx


/-- C5 (amended): the American-to-decimal round trip is the identity for
integer odds ≥ 100 or ≤ −101 (at odds = −100 it returns +100, since decimal
2.0 maps to +100); the decimal round trip lands within 1/100 of the input for
every decimal odds ≥ 1.01. -/
theorem C5_round_trip_amended :
    (∀ odds : ℤ, 100 ≤ odds ∨ odds ≤ -101 →
      (american_to_decimal (odds : ℚ)).bind decimal_to_american = some odds) ∧
    (∀ d : ℚ, 101 / 100 ≤ d →
      ∃ a d', decimal_to_american d = some a ∧ 100 ≤ |a| ∧
        american_to_decimal (a : ℚ) = some d' ∧ |d' - d| < 1 / 100) := by
  constructor
  · intro odds hodds
    rcases hodds with h | h
    · have h100 : (100:ℚ) ≤ (odds:ℚ) := by exact_mod_cast h
      have hpos : (0:ℚ) < (odds:ℚ) := by linarith
      rw [american_to_decimal_of_pos _ hpos, Option.some_bind, decimal_to_american,
        if_pos (by linarith : (2:ℚ) ≤ (odds:ℚ) / 100 + 1)]
      have hval : ((odds:ℚ) / 100 + 1 - 1) * 100 = (odds:ℚ) := by
        field_simp
      rw [hval, int_trunc, if_pos (by linarith : (0:ℚ) ≤ (odds:ℚ)), Int.floor_intCast]
    · have hneg : (odds:ℚ) < 0 := by
        have : (odds:ℚ) ≤ -101 := by exact_mod_cast h
        linarith
      have habs : |(odds:ℚ)| = -(odds:ℚ) := abs_of_neg hneg
      have habs101 : (101:ℚ) ≤ -(odds:ℚ) := by
        have : (odds:ℚ) ≤ -101 := by exact_mod_cast h
        linarith
      rw [american_to_decimal_of_neg _ hneg, Option.some_bind, habs, decimal_to_american]
      have hfrac : 100 / -(odds:ℚ) < 1 := by
        rw [div_lt_one (by linarith)]
        linarith
      have hfracpos : 0 < 100 / -(odds:ℚ) := by positivity
      rw [if_neg (by push_neg; linarith : ¬ (2:ℚ) ≤ 100 / -(odds:ℚ) + 1)]
      have hsimp : 100 / -(odds:ℚ) + 1 - 1 = 100 / -(odds:ℚ) := by ring
      rw [hsimp, div?_eq_some _ _ hfracpos.ne']
      have hval : (-100) / (100 / -(odds:ℚ)) = (odds:ℚ) := by
        field_simp
      rw [Option.map_some', hval, int_trunc, if_neg (not_le.mpr hneg), Int.ceil_intCast]
  · intro d hd
    by_cases h2 : 2 ≤ d
    · have hnonneg : (0:ℚ) ≤ (d - 1) * 100 := by nlinarith
      have ha_def : decimal_to_american d = some ⌊(d - 1) * 100⌋ := by
        rw [decimal_to_american, if_pos h2, int_trunc, if_pos hnonneg]
      have ha100 : (100:ℤ) ≤ ⌊(d - 1) * 100⌋ := Int.le_floor.mpr (by push_cast; nlinarith)
      have hfloor_le : ((⌊(d - 1) * 100⌋ : ℤ) : ℚ) ≤ (d - 1) * 100 := Int.floor_le _
      have hfloor_gt : (d - 1) * 100 - 1 < ((⌊(d - 1) * 100⌋ : ℤ) : ℚ) :=
        Int.sub_one_lt_floor _
      have hazpos : (0:ℤ) < ⌊(d - 1) * 100⌋ := lt_of_lt_of_le (by norm_num) ha100
      have hapos : (0:ℚ) < ((⌊(d - 1) * 100⌋ : ℤ) : ℚ) := by exact_mod_cast hazpos
      refine ⟨⌊(d - 1) * 100⌋, ((⌊(d - 1) * 100⌋ : ℤ) : ℚ) / 100 + 1, ha_def, ?_,
        american_to_decimal_of_pos _ hapos, ?_⟩
      · rw [abs_of_pos hazpos]
        exact ha100
      · rw [abs_sub_lt_iff]
        constructor <;> linarith
    · push_neg at h2
      have hc : (0:ℚ) < d - 1 := by linarith
      have hc1 : d - 1 < 1 := by linarith
      have hneg : (-100:ℚ) / (d - 1) < 0 := div_neg_of_neg_of_pos (by norm_num) hc
      have ha_def : decimal_to_american d = some ⌈(-100:ℚ) / (d - 1)⌉ := by
        rw [decimal_to_american, if_neg (not_le.mpr h2), div?_eq_some _ _ hc.ne',
          Option.map_some', int_trunc, if_neg (not_le.mpr hneg)]
      have hceil : ⌈(-100:ℚ) / (d - 1)⌉ = -⌊(100:ℚ) / (d - 1)⌋ := by
        rw [show (-100 : ℚ) / (d - 1) = -(100 / (d - 1)) by ring, Int.ceil_neg]
      have hx100 : (100:ℚ) < 100 / (d - 1) := by
        rw [lt_div_iff₀ hc]
        nlinarith
      have hk100 : (100:ℤ) ≤ ⌊(100:ℚ) / (d - 1)⌋ := Int.le_floor.mpr (by push_cast; linarith)
      have hkzpos : (0:ℤ) < ⌊(100:ℚ) / (d - 1)⌋ := lt_of_lt_of_le (by norm_num) hk100
      have hKpos : (0:ℚ) < ((⌊(100:ℚ) / (d - 1)⌋ : ℤ) : ℚ) := by exact_mod_cast hkzpos
      have hK100 : (100:ℚ) ≤ ((⌊(100:ℚ) / (d - 1)⌋ : ℤ) : ℚ) := by exact_mod_cast hk100
      have hk_le : ((⌊(100:ℚ) / (d - 1)⌋ : ℤ) : ℚ) ≤ 100 / (d - 1) := Int.floor_le _
      have hk_gt : 100 / (d - 1) < ((⌊(100:ℚ) / (d - 1)⌋ : ℤ) : ℚ) + 1 :=
        Int.lt_floor_add_one _
      have haneg : ((-⌊(100:ℚ) / (d - 1)⌋ : ℤ) : ℚ) < 0 := by push_cast; linarith
      refine ⟨-⌊(100:ℚ) / (d - 1)⌋, 100 / ((⌊(100:ℚ) / (d - 1)⌋ : ℤ) : ℚ) + 1,
        by rw [ha_def, hceil], ?_, ?_, ?_⟩
      · rw [abs_neg, abs_of_pos hkzpos]
        exact hk100
      · rw [american_to_decimal_of_neg _ haneg]
        congr 2
        push_cast
        rw [abs_neg, abs_of_pos hKpos]
      · have h1 : ((⌊(100:ℚ) / (d - 1)⌋ : ℤ) : ℚ) * (d - 1) ≤ 100 := by
          rw [← le_div_iff₀ hc]
          exact hk_le
        have h2' : (100:ℚ) < (((⌊(100:ℚ) / (d - 1)⌋ : ℤ) : ℚ) + 1) * (d - 1) := by
          rw [← div_lt_iff₀ hc]
          exact hk_gt
        have hlow : 0 ≤ 100 / ((⌊(100:ℚ) / (d - 1)⌋ : ℤ) : ℚ) - (d - 1) := by
          rw [sub_nonneg, le_div_iff₀ hKpos, mul_comm]
          exact h1
        have hkc : (99:ℚ) < ((⌊(100:ℚ) / (d - 1)⌋ : ℤ) : ℚ) * (d - 1) := by
          nlinarith
        have hupp : 100 / ((⌊(100:ℚ) / (d - 1)⌋ : ℤ) : ℚ) - (d - 1) < 1 / 100 := by
          rw [sub_lt_iff_lt_add, div_lt_iff₀ hKpos]
          nlinarith
        rw [abs_sub_lt_iff]
        constructor <;> linarith

/-- C5 (counterexample to the claim as stated): the round trip at American odds
−100 returns +100, not −100. -/
theorem C5_counterexample_neg100 :
    (american_to_decimal ((-100 : ℤ) : ℚ)).bind decimal_to_american = some 100 ∧
    ((100 : ℤ) ≠ -100) := by
  constructor
  · norm_num [american_to_decimal, decimal_to_american, div?, int_trunc]
  · decide

/-! ### Witnesses -/

/-- Witness for C1 at a concrete input. -/
theorem C1_witness :
    ∃ r, KellyCalculator.calculate_recommended_stake (3/5) 100 1000 (1/2) (1/4) = some r ∧
      0 ≤ r.recommended_stake ∧ r.recommended_stake ≤ 1000 * (1/4) :=
  C1_stake_within_bounds (3/5) 100 1000 (1/2) (1/4)
    (by norm_num) (by norm_num) (by norm_num) (by norm_num)
    (by norm_num) (by norm_num)

/-- Witness for C2 at a concrete input. -/
theorem C2_witness :
    ∃ d, american_to_decimal 100 = some d ∧
      KellyCalculator.calculate_kelly_fraction (3/5) 100 =
        some (max 0 (((d - 1) * (3/5) - (1 - 3/5)) / (d - 1))) ∧
      (0 ≤ ((d - 1) * (3/5) - (1 - 3/5)) / (d - 1) →
        KellyCalculator.calculate_kelly_fraction (3/5) 100 =
          some (((d - 1) * (3/5) - (1 - 3/5)) / (d - 1))) :=
  (C2_kelly_fraction_formula (3/5) 100 (by norm_num)).2
    (by norm_num) (by norm_num)

/-- Witness for C3 at a concrete input. -/
theorem C3_witness :
    ∃ res, KellyCalculator.simulate_kelly_betting (1/2) 100 1000 [true, false] (1/2) =
        some res ∧
      res.total_bets ≤ ([true, false] : List Bool).length ∧
      ∀ x ∈ res.bankroll_history, 0 ≤ x :=
  C3_simulation_bounded (1/2) 100 1000 (1/2) [true, false] (by norm_num) (by norm_num)
    (by norm_num) (by norm_num) (by norm_num) (by norm_num)

/-- Witness for C4 at a concrete input. -/
theorem C4_witness :
    ∃ r, KellyCalculator.calculate_recommended_stake 0 100 1000 1 1 = some r ∧
      r.kelly_fraction = 0 ∧ r.modified_kelly = 0 ∧ r.recommended_stake = 0 ∧
      r.stake_percentage = 0 := by
  obtain ⟨r, hr, himpl⟩ := C4_degrades_to_zero_stake 0 100 1000 1 1 (by norm_num)
  exact ⟨r, hr, himpl (Or.inl le_rfl)⟩

/-- Witness for C5 at concrete inputs. -/
theorem C5_witness :
    (american_to_decimal ((110 : ℤ) : ℚ)).bind decimal_to_american = some 110 ∧
    (∃ a d', decimal_to_american (3/2) = some a ∧ 100 ≤ |a| ∧
      american_to_decimal (a : ℚ) = some d' ∧ |d' - 3/2| < 1 / 100) :=
  ⟨C5_round_trip_amended.1 110 (Or.inl (by norm_num)),
   C5_round_trip_amended.2 (3/2) (by norm_num)⟩

/-- Witness for C6 at concrete inputs. -/
theorem C6_witness :
    KellyCalculator.assess_risk 3 = "LOW RISK" ∧
    KellyCalculator.assess_risk 10 = "MEDIUM RISK" ∧
    KellyCalculator.assess_risk 20 = "HIGH RISK" ∧
    assess_risk (3/100) = "LOW RISK" ∧
    (200 : ℚ) = 1000 * (20 / 100) :=
  ⟨(C6_risk_tiers.1 3).1.mpr (by norm_num),
   (C6_risk_tiers.1 10).2.1.mpr (by norm_num),
   (C6_risk_tiers.1 20).2.2.mpr (by norm_num),
   (C6_risk_tiers.2.1 (3/100)).1.mpr (by norm_num),
   C6_risk_tiers.2.2 (3/5) 100 1000 1 1
     ⟨60, 50, 10, 20, 20, 200, 20, 40, "HIGH RISK", 1000⟩
     (by norm_num [KellyCalculator.calculate_recommended_stake,
       KellyCalculator.calculate_kelly_fraction, implied_probability, calculate_edge,
       KellyCalculator.calculate_expected_value, american_to_decimal, div?,
       KellyCalculator.assess_risk, RISK_THRESHOLDS_LOW, RISK_THRESHOLDS_MEDIUM])⟩

/-- Witness for C7 at concrete inputs. -/
theorem C7_witness :
    ∃ r r', KellyCalculator.calculate_recommended_stake (3/5) 100 1000 (1/4) (1/2) =
        some r ∧
      KellyCalculator.calculate_recommended_stake (3/5) 100 1000 (1/2) 1 = some r' ∧
      r.recommended_stake ≤ r'.recommended_stake :=
  C7_stake_monotone (3/5) 100 1000 (1/4) (1/2) (1/2) 1 (by norm_num) (by norm_num)
    (by norm_num) (by norm_num) (by norm_num) (by norm_num)

/-- Witness for C9 at a concrete input. -/
theorem C9_witness :
    ∃ f, KellyCalculator.calculate_kelly_fraction (3/5) 100 = some f ∧ f ≤ 3/5 ∧ f < 1 :=
  C9_kelly_fraction_le_probability (3/5) 100 (by norm_num) (by norm_num) (by norm_num)

/-- Witness for C10 at a concrete input. -/
theorem C10_witness :
    ∃ r f d ip e, KellyCalculator.calculate_kelly_fraction (3/5) 100 = some f ∧
      american_to_decimal 100 = some d ∧
      implied_probability 100 = some ip ∧
      calculate_edge (3/5) 100 = some e ∧
      KellyCalculator.calculate_recommended_stake (3/5) 100 1000 1 1 = some r ∧
      r.win_probability = (3/5) * 100 ∧
      r.implied_probability = ip * 100 ∧
      r.edge = e * 100 ∧
      r.kelly_fraction = f * 100 ∧
      r.modified_kelly = f * 1 * 100 ∧
      r.recommended_stake = 1000 * 1 * (f * 1) ∧
      r.available_bankroll = 1000 * 1 ∧
      KellyCalculator.calculate_expected_value (3/5) 100 r.recommended_stake =
        some r.expected_value ∧
      r.stake_percentage =
        (if (0:ℚ) < 1000 then r.recommended_stake / 1000 * 100 else 0) :=
  C10_percent_units (3/5) 100 1000 1 1 (by norm_num)
